import Mathlib

/-!
Verification of the telnet stream engine of `clab_vm_startup`
(`helpers/telnet_client.py` and `helpers/iosxr_console.py`).

The development shallowly embeds:

* `process_raw_data` — the telnet negotiation filter, a Python generator over
  an iterator of bytes.  Bytes are `Nat`, the clean output is a `List Nat`,
  the replies written to the socket are a list of three-byte reply frames,
  and the boolean `sub_negotiation` flag is threaded explicitly.  A chunk
  that ends in the middle of a multi-byte command makes the bare
  `next(raw_sequence)` call raise `StopIteration`, which Python ≥ 3.7
  (PEP 479) converts into a `RuntimeError` escaping the generator; this
  crash is modelled as `none`.

* `TelnetClient.__accumulate_stream` fused with its two consumers
  `read_until` and `expect` — recursive functions over the receiver queue.
  Text is `List Char`; the queue holds timestamped items, an item being
  either a text chunk (`some chunk`) or the `END_OF_QUEUE` sentinel
  (`none`).  Wall-clock time is an `Int` that advances when an item is
  dequeued; timeout bookkeeping mirrors the Python arithmetic
  `time_remaining = timeout - (time.time() - start)`.

* `IOSXRConsole.disconnect` — the console automaton's disconnect step,
  with its inverted success condition: a timeout waiting for the prompt
  after `exit` is the success path.
-/

namespace Clab

/-! ## Telnet byte constants (`telnet_client.py`, lines 31–41) -/

def IAC : Nat := 255
def DONT : Nat := 254
def DO : Nat := 253
def WONT : Nat := 252
def WILL : Nat := 251
def NULL : Nat := 0
def SE : Nat := 240
def SB : Nat := 250

/-! ## The negotiation filter `process_raw_data` (lines 44–98)

`processRaw sn chunk = some (clean, replies, sn')` when the generator
consumes the whole chunk: `clean` is the sequence of yielded bytes,
`replies` the list of 3-byte negotiation replies sent on the socket (in
order), and `sn'` the final `sub_negotiation` flag.  The result is `none`
when the chunk ends in the middle of a command, where the generator's bare
`next(raw_sequence)` raises `StopIteration` and, under PEP 479, the
generator crashes with a `RuntimeError`. -/

def processRaw : Bool → List Nat → Option (List Nat × List (List Nat) × Bool)
  | sn, [] => some ([], [], sn)
  | sn, b :: rest =>
    if b = IAC then
      match rest with
      | [] => none
      | cmd :: rest2 =>
        if cmd = DO ∨ cmd = DONT then
          match rest2 with
          | [] => none
          | opt :: rest3 =>
            (processRaw sn rest3).map fun x => (x.1, [IAC, WONT, opt] :: x.2.1, x.2.2)
        else if cmd = WILL ∨ cmd = WONT then
          match rest2 with
          | [] => none
          | opt :: rest3 =>
            (processRaw sn rest3).map fun x => (x.1, [IAC, DONT, opt] :: x.2.1, x.2.2)
        else if cmd = IAC then
          (processRaw sn rest2).map fun x => (IAC :: x.1, x.2.1, x.2.2)
        else if cmd = SB then
          processRaw true rest2
        else if cmd = SE then
          processRaw false rest2
        else
          processRaw sn rest2
    else if b = NULL ∨ b = 17 then
      processRaw sn rest
    else if sn then
      processRaw sn rest
    else
      (processRaw sn rest).map fun x => (b :: x.1, x.2.1, x.2.2)

/-- The empty chunk is consumed without output, replies or state change. -/
lemma processRaw_nil (sn : Bool) : processRaw sn [] = some ([], [], sn) := rfl

/-- A complete `IAC DO/DONT option` negotiation sends one `IAC WONT option`
reply and emits nothing. -/
lemma processRaw_do_reply (sn : Bool) (cmd opt : Nat) (rest : List Nat)
    (h : cmd = DO ∨ cmd = DONT) :
    processRaw sn (IAC :: cmd :: opt :: rest) =
      (processRaw sn rest).map fun x => (x.1, [IAC, WONT, opt] :: x.2.1, x.2.2) := by
  rcases h with rfl | rfl <;>
    · rw [processRaw.eq_def]
      simp [IAC, DO, DONT, WILL, WONT, SB, SE, NULL]

/-- A complete `IAC WILL/WONT option` negotiation sends one `IAC DONT option`
reply and emits nothing. -/
lemma processRaw_will_reply (sn : Bool) (cmd opt : Nat) (rest : List Nat)
    (h : cmd = WILL ∨ cmd = WONT) :
    processRaw sn (IAC :: cmd :: opt :: rest) =
      (processRaw sn rest).map fun x => (x.1, [IAC, DONT, opt] :: x.2.1, x.2.2) := by
  rcases h with rfl | rfl <;>
    · rw [processRaw.eq_def]
      simp [IAC, DO, DONT, WILL, WONT, SB, SE, NULL]

/-- An escaped `IAC IAC` pair yields a single `IAC` byte (in any state). -/
lemma processRaw_escaped (sn : Bool) (rest : List Nat) :
    processRaw sn (IAC :: IAC :: rest) =
      (processRaw sn rest).map fun x => (IAC :: x.1, x.2.1, x.2.2) := by
  rw [processRaw.eq_def]
  simp [IAC, DO, DONT, WILL, WONT, SB, SE, NULL]

/-- `IAC SB` turns subnegotiation mode on. -/
lemma processRaw_sb (sn : Bool) (rest : List Nat) :
    processRaw sn (IAC :: SB :: rest) = processRaw true rest := by
  rw [processRaw.eq_def]
  simp [IAC, DO, DONT, WILL, WONT, SB, SE, NULL]

/-- `IAC SE` turns subnegotiation mode off. -/
lemma processRaw_se (sn : Bool) (rest : List Nat) :
    processRaw sn (IAC :: SE :: rest) = processRaw false rest := by
  rw [processRaw.eq_def]
  simp [IAC, DO, DONT, WILL, WONT, SB, SE, NULL]

/-- Any other command byte after `IAC` is silently consumed. -/
lemma processRaw_cmd_other (sn : Bool) (cmd : Nat) (rest : List Nat)
    (h1 : ¬(cmd = DO ∨ cmd = DONT)) (h2 : ¬(cmd = WILL ∨ cmd = WONT))
    (h3 : ¬cmd = IAC) (h4 : ¬cmd = SB) (h5 : ¬cmd = SE) :
    processRaw sn (IAC :: cmd :: rest) = processRaw sn rest := by
  push_neg at h1 h2
  rw [processRaw.eq_def]
  simp only [IAC, DO, DONT, WILL, WONT, SB, SE, NULL] at h1 h2 h3 h4 h5 ⊢
  simp [h1.1, h1.2, h2.1, h2.2, h3, h4, h5]

/-- Bytes 0 (NUL) and 17 are dropped in any state. -/
lemma processRaw_ignorable (sn : Bool) (b : Nat) (rest : List Nat)
    (hb : ¬b = IAC) (h : b = NULL ∨ b = 17) :
    processRaw sn (b :: rest) = processRaw sn rest := by
  rw [processRaw.eq_def]
  rcases h with rfl | rfl <;> simp [IAC, NULL]

/-- In subnegotiation mode every non-`IAC` byte is dropped. -/
lemma processRaw_subneg_drop (b : Nat) (rest : List Nat) (hb : ¬b = IAC) :
    processRaw true (b :: rest) = processRaw true rest := by
  rw [processRaw.eq_def]
  simp only [if_neg hb]
  split <;> rfl

/-- Outside a command and outside subnegotiation, a byte other than `IAC`,
0 and 17 passes through unchanged. -/
lemma processRaw_pass (b : Nat) (rest : List Nat)
    (hb : ¬b = IAC) (h : ¬(b = NULL ∨ b = 17)) :
    processRaw false (b :: rest) =
      (processRaw false rest).map fun x => (b :: x.1, x.2.1, x.2.2) := by
  push_neg at h
  rw [processRaw.eq_def]
  simp [hb, h.1, h.2]

/-- A chunk ending in a lone `IAC` crashes the generator. -/
lemma processRaw_iac_end (sn : Bool) : processRaw sn [IAC] = none := rfl

/-- A chunk ending in `IAC` plus a negotiation command with no option byte
crashes the generator. -/
lemma processRaw_opt_end (sn : Bool) (cmd : Nat)
    (h : cmd = DO ∨ cmd = DONT ∨ cmd = WILL ∨ cmd = WONT) :
    processRaw sn [IAC, cmd] = none := by
  rw [processRaw.eq_def]
  rcases h with rfl | rfl | rfl | rfl <;> simp [IAC, DO, DONT, WILL, WONT, SB, SE, NULL]

/-- Processing a concatenation of two byte sequences: when the first part
completes without truncation, the filter continues on the second part
from the resulting subnegotiation state, and outputs and replies
concatenate. -/
theorem processRaw_append :
    ∀ (sn : Bool) (xs ys : List Nat) (o : List Nat) (r : List (List Nat)) (s : Bool),
      processRaw sn xs = some (o, r, s) →
      processRaw sn (xs ++ ys) =
        (processRaw s ys).map fun x => (o ++ x.1, r ++ x.2.1, x.2.2) := by
  intro sn xs
  induction sn, xs using processRaw.induct with
  | case1 sn =>
    intro ys o r s h
    rw [processRaw_nil] at h
    simp only [Option.some.injEq, Prod.mk.injEq] at h
    obtain ⟨rfl, rfl, rfl⟩ := h
    cases hys : processRaw sn ys <;> simp [hys]
  | case2 sn =>
    intro ys o r s h
    rw [processRaw_iac_end] at h
    simp at h
  | case3 sn opt hopt =>
    intro ys o r s h
    rw [processRaw_opt_end sn opt (by tauto)] at h
    simp at h
  | case4 sn opt hopt opt1 rest3 ih =>
    intro ys o r s h
    rw [processRaw_do_reply sn opt opt1 rest3 hopt] at h
    obtain ⟨x, hx, hfx⟩ := Option.map_eq_some'.mp h
    obtain ⟨rfl, rfl, rfl⟩ : x.1 = o ∧ [IAC, WONT, opt1] :: x.2.1 = r ∧ x.2.2 = s := by
      simpa [Prod.ext_iff] using hfx
    rw [List.cons_append, List.cons_append, List.cons_append,
      processRaw_do_reply sn opt opt1 (rest3 ++ ys) hopt, ih ys x.1 x.2.1 x.2.2 hx,
      Option.map_map]
    cases hys : processRaw x.2.2 ys <;> simp [hys]
  | case5 sn opt hno hopt =>
    intro ys o r s h
    rw [processRaw_opt_end sn opt (by tauto)] at h
    simp at h
  | case6 sn opt hno hopt opt1 rest3 ih =>
    intro ys o r s h
    rw [processRaw_will_reply sn opt opt1 rest3 hopt] at h
    obtain ⟨x, hx, hfx⟩ := Option.map_eq_some'.mp h
    obtain ⟨rfl, rfl, rfl⟩ : x.1 = o ∧ [IAC, DONT, opt1] :: x.2.1 = r ∧ x.2.2 = s := by
      simpa [Prod.ext_iff] using hfx
    rw [List.cons_append, List.cons_append, List.cons_append,
      processRaw_will_reply sn opt opt1 (rest3 ++ ys) hopt, ih ys x.1 x.2.1 x.2.2 hx,
      Option.map_map]
    cases hys : processRaw x.2.2 ys <;> simp [hys]
  | case7 sn rest3 h1 h2 ih =>
    intro ys o r s h
    rw [processRaw_escaped] at h
    obtain ⟨x, hx, hfx⟩ := Option.map_eq_some'.mp h
    obtain ⟨rfl, rfl, rfl⟩ : IAC :: x.1 = o ∧ x.2.1 = r ∧ x.2.2 = s := by
      simpa [Prod.ext_iff] using hfx
    rw [List.cons_append, List.cons_append, processRaw_escaped,
      ih ys x.1 x.2.1 x.2.2 hx, Option.map_map]
    cases hys : processRaw x.2.2 ys <;> simp [hys]
  | case8 sn rest3 h1 h2 h3 ih =>
    intro ys o r s h
    rw [processRaw_sb] at h
    rw [List.cons_append, List.cons_append, processRaw_sb, ih ys o r s h]
  | case9 sn rest3 h1 h2 h3 h4 ih =>
    intro ys o r s h
    rw [processRaw_se] at h
    rw [List.cons_append, List.cons_append, processRaw_se, ih ys o r s h]
  | case10 sn opt rest3 h1 h2 h3 h4 h5 ih =>
    intro ys o r s h
    rw [processRaw_cmd_other sn opt rest3 h1 h2 h3 h4 h5] at h
    rw [List.cons_append, List.cons_append,
      processRaw_cmd_other sn opt (rest3 ++ ys) h1 h2 h3 h4 h5, ih ys o r s h]
  | case11 sn b rest hb hdrop ih =>
    intro ys o r s h
    rw [processRaw_ignorable sn b rest hb hdrop] at h
    rw [List.cons_append, processRaw_ignorable sn b (rest ++ ys) hb hdrop, ih ys o r s h]
  | case12 b rest hb hdrop ih =>
    intro ys o r s h
    rw [processRaw_subneg_drop b rest hb] at h
    rw [List.cons_append, processRaw_subneg_drop b (rest ++ ys) hb, ih ys o r s h]
  | case13 sn b rest hb hdrop hsn ih =>
    intro ys o r s h
    have hsn' : sn = false := by
      cases sn
      · rfl
      · exact absurd rfl hsn
    subst hsn'
    rw [processRaw_pass b rest hb hdrop] at h
    obtain ⟨x, hx, hfx⟩ := Option.map_eq_some'.mp h
    obtain ⟨rfl, rfl, rfl⟩ : b :: x.1 = o ∧ x.2.1 = r ∧ x.2.2 = s := by
      simpa [Prod.ext_iff] using hfx
    rw [List.cons_append, processRaw_pass b (rest ++ ys) hb hdrop,
      ih ys x.1 x.2.1 x.2.2 hx, Option.map_map]
    cases hys : processRaw x.2.2 ys <;> simp [hys]

/-- Model of the `receiver` thread's per-chunk processing (`telnet_client.py`,
lines 201–226): every chunk received from the socket is run through a
fresh `process_raw_data` generator whose `sub_negotiation` state starts at
`False`; the clean text of all chunks is concatenated onto the queues.  A
crash of the filter (truncated command) kills the receiver thread,
modelled as `none`. -/
def receiverFeed : List (List Nat) → Option (List Nat)
  | [] => some []
  | c :: cs =>
    match processRaw false c with
    | none => none
    | some x => (receiverFeed cs).map fun o => x.1 ++ o

/-! ## The stream matcher

`TelnetClient.__accumulate_stream` (lines 359–398) fused with its
consumers `read_until` (lines 400–422) and `expect` (lines 445–479).

The connection state `CState` holds the `_unconsumed` buffer, the
`_readable` flag, the receiver queue (each item carries the wall-clock
time at which `Queue.get` would return it, measured on the same clock as
`time.time()`), and the current wall-clock time `now`.  A queue item is
`some chunk` for a text chunk and `none` for the `END_OF_QUEUE`
sentinel.  Dequeuing advances the clock to the item's arrival time; all
other operations are instantaneous in the model. -/

/-- Leftmost occurrence of `p` in `t` (Python `str.find`, returning
`none` for `-1`). -/
def subIdx (p : List Char) : List Char → Option Nat
  | [] => if p <+: ([] : List Char) then some 0 else none
  | c :: t => if p <+: c :: t then some 0 else (subIdx p t).map (· + 1)

/-- Python `text.find(pat, off)`: leftmost occurrence of `pat` in `text`
at an index ≥ `off`, as used by `read_until` (line 412). -/
def findFrom (t p : List Char) (off : Nat) : Option Nat :=
  (subIdx p (t.drop off)).map (· + off)

/-- The per-connection state visible to the stream matcher: `_unconsumed`
buffer, `_readable` flag, the receiver queue with arrival timestamps, and
the current wall-clock time. -/
structure CState where
  unconsumed : List Char
  readable : Bool
  queue : List (Int × Option (List Char))
  now : Int
deriving DecidableEq

/-- The generator's deadline check (lines 379–384):
`time_remaining = timeout - (time.time() - start)` has become ≤ 0. -/
def deadlinePassed (tmo : Option Int) (start now : Int) : Bool :=
  match tmo with
  | none => false
  | some t => decide (t - (now - start) ≤ 0)

/-- `Queue.get(timeout=time_remaining)` raising `Empty` (lines 392–395):
the next item arrives after the absolute deadline `start + timeout`. -/
def arrivesLate (tmo : Option Int) (start arrival : Int) : Bool :=
  match tmo with
  | none => false
  | some t => decide (start + t < arrival)

/-- Result of a `read_until` call: the returned text and the new
connection state, or the raised exception (`TimeoutError` / `EOFError`)
with the state it leaves behind; `diverge` marks a call that blocks
forever (no timeout and the queue never delivers again). -/
inductive RURes where
  | ok (ret : List Char) (s : CState)
  | timeoutErr (s : CState)
  | eofErr (s : CState)
  | diverge
deriving DecidableEq

/-- One iteration of `read_until`'s `for data in self.__accumulate_stream(...)`
loop, entered with the accumulated text `data` (which the generator has
already stored into `_unconsumed`), the search offset `off`, the
`_readable` flag `rd`, the remaining queue `q` and the current time `now`.
Mirrors lines 359–398 and 409–419:
search, then deadline check, then readable check, then `Queue.get`. -/
def readUntilGo (pat : List Char) (tmo : Option Int) (start : Int) :
    List (Int × Option (List Char)) → List Char → Nat → Bool → Int → RURes
  | [], data, off, rd, now =>
    match findFrom data pat off with
    | some i =>
      .ok (data.take (i + pat.length)) ⟨data.drop (i + pat.length), rd, [], now⟩
    | none =>
      if deadlinePassed tmo start now then .timeoutErr ⟨data, rd, [], now⟩
      else if rd then
        match tmo with
        | none => .diverge
        | some _ => .timeoutErr ⟨data, rd, [], now⟩
      else .eofErr ⟨data, false, [], now⟩
  | (t, item) :: rest, data, off, rd, now =>
    match findFrom data pat off with
    | some i =>
      .ok (data.take (i + pat.length)) ⟨data.drop (i + pat.length), rd, (t, item) :: rest, now⟩
    | none =>
      if deadlinePassed tmo start now then .timeoutErr ⟨data, rd, (t, item) :: rest, now⟩
      else if rd then
        if arrivesLate tmo start t then .timeoutErr ⟨data, rd, (t, item) :: rest, now⟩
        else
          match item with
          | none => .eofErr ⟨data, false, rest, max now t⟩
          | some c =>
            readUntilGo pat tmo start rest (data ++ c) (data.length - pat.length) rd (max now t)
      else .eofErr ⟨data, false, (t, item) :: rest, now⟩

/-- `TelnetClient.read_until(match, timeout)` on a connection in state `s`:
the accumulation starts from the `_unconsumed` buffer with search offset 0,
and `start = time.time()` is recorded at call entry. -/
def readUntil (pat : List Char) (tmo : Option Int) (s : CState) : RURes :=
  readUntilGo pat tmo s.now s.queue s.unconsumed 0 s.readable s.now

/-- A compiled regular expression as consumed by `expect`: `search` returns
the span `(start, end)` of the match object, or `none` when there is no
match.  Only `Match.end()` is consumed by `expect`. -/
abbrev RPat := List Char → Option (Nat × Nat)

/-- The inner `for pattern in expressions` loop of `expect` (lines 469–474):
the first pattern in list order that matches `d`, with its match span. -/
def firstMatch : List RPat → List Char → Option (Nat × Nat × Nat)
  | [], _ => none
  | p :: ps, d =>
    match p d with
    | some m => some (0, m)
    | none => (firstMatch ps d).map fun x => (x.1 + 1, x.2)

/-- Result of an `expect` call: index of the matching pattern in the
caller-supplied list, the match span, the text up to and including the
match end, and the new state — or the raised exception. -/
inductive ExpRes where
  | ok (idx : Nat) (m : Nat × Nat) (ret : List Char) (s : CState)
  | timeoutErr (s : CState)
  | eofErr (s : CState)
  | diverge
deriving DecidableEq

/-- One iteration of `expect`'s accumulation loop (lines 467–479): search
every pattern against the whole accumulated text, then the same
deadline / readable / dequeue sequence as `read_until`. -/
def expectGo (pats : List RPat) (tmo : Option Int) (start : Int) :
    List (Int × Option (List Char)) → List Char → Bool → Int → ExpRes
  | [], data, rd, now =>
    match firstMatch pats data with
    | some (k, m) =>
      .ok k m (data.take m.2) ⟨data.drop m.2, rd, [], now⟩
    | none =>
      if deadlinePassed tmo start now then .timeoutErr ⟨data, rd, [], now⟩
      else if rd then
        match tmo with
        | none => .diverge
        | some _ => .timeoutErr ⟨data, rd, [], now⟩
      else .eofErr ⟨data, false, [], now⟩
  | (t, item) :: rest, data, rd, now =>
    match firstMatch pats data with
    | some (k, m) =>
      .ok k m (data.take m.2) ⟨data.drop m.2, rd, (t, item) :: rest, now⟩
    | none =>
      if deadlinePassed tmo start now then .timeoutErr ⟨data, rd, (t, item) :: rest, now⟩
      else if rd then
        if arrivesLate tmo start t then .timeoutErr ⟨data, rd, (t, item) :: rest, now⟩
        else
          match item with
          | none => .eofErr ⟨data, false, rest, max now t⟩
          | some c => expectGo pats tmo start rest (data ++ c) rd (max now t)
      else .eofErr ⟨data, false, (t, item) :: rest, now⟩

/-- `TelnetClient.expect(expressions, timeout)` on a connection in state `s`. -/
def expect (pats : List RPat) (tmo : Option Int) (s : CState) : ExpRes :=
  expectGo pats tmo s.now s.queue s.unconsumed s.readable s.now

/-! ### Characterisation of `subIdx` / `findFrom` -/

/-- When no suffix of `t` starts with `p`, there is no occurrence. -/
lemma subIdx_none_of (p : List Char) (t : List Char) (h : ∀ j, ¬ p <+: t.drop j) :
    subIdx p t = none := by
  induction t with
  | nil =>
    have h0 := h 0
    rw [List.drop_zero] at h0
    simp [subIdx, h0]
  | cons c t ih =>
    have h0 := h 0
    rw [List.drop_zero] at h0
    have ih' : subIdx p t = none := ih fun j => by simpa using h (j + 1)
    simp [subIdx, h0, ih']

/-- `subIdx` returns an occurrence, and the leftmost one. -/
lemma subIdx_some (p : List Char) (t : List Char) (i : Nat) (h : subIdx p t = some i) :
    p <+: t.drop i ∧ ∀ j, j < i → ¬ p <+: t.drop j := by
  induction t generalizing i with
  | nil =>
    by_cases hp : p <+: ([] : List Char)
    · simp only [subIdx, if_pos hp, Option.some.injEq] at h
      subst h
      exact ⟨by simpa using hp, fun j hj => by omega⟩
    · simp [subIdx, hp] at h
  | cons c t ih =>
    by_cases hp : p <+: c :: t
    · simp only [subIdx, if_pos hp, Option.some.injEq] at h
      subst h
      exact ⟨by simpa using hp, fun j hj => by omega⟩
    · simp only [subIdx, if_neg hp, Option.map_eq_some'] at h
      obtain ⟨a, ha, rfl⟩ := h
      obtain ⟨h1, h2⟩ := ih a ha
      refine ⟨by simpa using h1, ?_⟩
      intro j hj
      cases j with
      | zero => simpa using hp
      | succ j' => simpa using h2 j' (by omega)

/-- Conversely, the leftmost occurrence is what `subIdx` returns. -/
lemma subIdx_of_first (p : List Char) (t : List Char) (i : Nat)
    (h1 : p <+: t.drop i) (h2 : ∀ j, j < i → ¬ p <+: t.drop j) :
    subIdx p t = some i := by
  induction t generalizing i with
  | nil =>
    cases i with
    | zero =>
      rw [List.drop_zero] at h1
      simp [subIdx, h1]
    | succ n =>
      have hp : ¬ p <+: ([] : List Char) := by simpa using h2 0 (Nat.succ_pos n)
      exact absurd (by simpa using h1) hp
  | cons c t ih =>
    cases i with
    | zero =>
      rw [List.drop_zero] at h1
      simp [subIdx, h1]
    | succ n =>
      have hp : ¬ p <+: c :: t := by simpa using h2 0 (Nat.succ_pos n)
      have hrec := ih n (by simpa using h1) fun j hj => by simpa using h2 (j + 1) (by omega)
      simp [subIdx, hp, hrec]

/-- `text.find(pat, off)` fails when no occurrence starts at or after `off`. -/
lemma findFrom_eq_none (t p : List Char) (off : Nat)
    (h : ∀ j, off ≤ j → ¬ p <+: t.drop j) : findFrom t p off = none := by
  have hs : subIdx p (t.drop off) = none := by
    apply subIdx_none_of
    intro j
    rw [List.drop_drop]
    exact h (off + j) (Nat.le_add_right off j)
  simp [findFrom, hs]

/-- `text.find(pat, off)` returns the leftmost occurrence at index ≥ `off`. -/
lemma findFrom_eq_some (t p : List Char) (off i : Nat) (hoff : off ≤ i)
    (h1 : p <+: t.drop i) (h2 : ∀ j, off ≤ j → j < i → ¬ p <+: t.drop j) :
    findFrom t p off = some i := by
  have hs : subIdx p (t.drop off) = some (i - off) := by
    apply subIdx_of_first
    · rw [List.drop_drop, Nat.add_sub_cancel' hoff]
      exact h1
    · intro j hj
      rw [List.drop_drop]
      exact h2 (off + j) (Nat.le_add_right _ _) (by omega)
  simp [findFrom, hs, Nat.sub_add_cancel hoff]

/-- What a successful `text.find(pat, off)` guarantees: an occurrence at
`i ≥ off` and no earlier occurrence at or after `off`. -/
lemma findFrom_some (t p : List Char) (off i : Nat) (h : findFrom t p off = some i) :
    off ≤ i ∧ p <+: t.drop i ∧ ∀ j, off ≤ j → j < i → ¬ p <+: t.drop j := by
  simp only [findFrom, Option.map_eq_some'] at h
  obtain ⟨a, ha, rfl⟩ := h
  obtain ⟨h1, h2⟩ := subIdx_some p (t.drop off) a ha
  rw [List.drop_drop, Nat.add_comm off a] at h1
  refine ⟨Nat.le_add_left _ _, h1, ?_⟩
  intro j hj1 hj2
  have hj := h2 (j - off) (by omega)
  rw [List.drop_drop, Nat.add_sub_cancel' hj1] at hj
  exact hj

/-! ### Single-iteration behaviour of the accumulation loop -/

/-- A successful search ends the call: the text up to and including the
match is returned and everything after it becomes `_unconsumed`. -/
lemma ru_found (pat : List Char) (tmo : Option Int) (start : Int)
    (q : List (Int × Option (List Char))) (data : List Char) (off : Nat) (rd : Bool)
    (now : Int) (i : Nat) (h : findFrom data pat off = some i) :
    readUntilGo pat tmo start q data off rd now =
      .ok (data.take (i + pat.length)) ⟨data.drop (i + pat.length), rd, q, now⟩ := by
  cases q with
  | nil =>
    simp only [readUntilGo]
    rw [h]
  | cons x rest =>
    obtain ⟨t, item⟩ := x
    simp only [readUntilGo]
    rw [h]

/-- An elapsed deadline raises `TimeoutError`; the accumulated text stays
in `_unconsumed`, the flag and queue are untouched. -/
lemma ru_deadline (pat : List Char) (tmo : Option Int) (start : Int)
    (q : List (Int × Option (List Char))) (data : List Char) (off : Nat) (rd : Bool)
    (now : Int) (h : findFrom data pat off = none)
    (hd : deadlinePassed tmo start now = true) :
    readUntilGo pat tmo start q data off rd now = .timeoutErr ⟨data, rd, q, now⟩ := by
  cases q with
  | nil =>
    simp only [readUntilGo]
    rw [h]
    simp [hd]
  | cons x rest =>
    obtain ⟨t, item⟩ := x
    simp only [readUntilGo]
    rw [h]
    simp [hd]

/-- An unreadable stream raises `EOFError` without touching the queue. -/
lemma ru_noread (pat : List Char) (tmo : Option Int) (start : Int)
    (q : List (Int × Option (List Char))) (data : List Char) (off : Nat)
    (now : Int) (h : findFrom data pat off = none)
    (hd : deadlinePassed tmo start now = false) :
    readUntilGo pat tmo start q data off false now = .eofErr ⟨data, false, q, now⟩ := by
  cases q with
  | nil =>
    simp only [readUntilGo]
    rw [h]
    simp [hd]
  | cons x rest =>
    obtain ⟨t, item⟩ := x
    simp only [readUntilGo]
    rw [h]
    simp [hd]

/-- With a finite timeout and an exhausted queue, `Queue.get` raises
`Empty`, surfaced as `TimeoutError`. -/
lemma ru_empty (pat : List Char) (T : Int) (start : Int)
    (data : List Char) (off : Nat) (now : Int) (h : findFrom data pat off = none)
    (hd : deadlinePassed (some T) start now = false) :
    readUntilGo pat (some T) start [] data off true now =
      .timeoutErr ⟨data, true, [], now⟩ := by
  simp only [readUntilGo]
  rw [h]
  simp [hd]

/-- An item arriving after the absolute deadline: `Queue.get` raises
`Empty`, surfaced as `TimeoutError`, and the item is not consumed. -/
lemma ru_late (pat : List Char) (tmo : Option Int) (start : Int)
    (data : List Char) (off : Nat) (t : Int) (item : Option (List Char))
    (rest : List (Int × Option (List Char))) (now : Int)
    (h : findFrom data pat off = none)
    (hd : deadlinePassed tmo start now = false)
    (hl : arrivesLate tmo start t = true) :
    readUntilGo pat tmo start ((t, item) :: rest) data off true now =
      .timeoutErr ⟨data, true, (t, item) :: rest, now⟩ := by
  simp only [readUntilGo]
  rw [h]
  simp [hd, hl]

/-- Dequeuing the `END_OF_QUEUE` sentinel raises `EOFError` and clears
`_readable`. -/
lemma ru_eos (pat : List Char) (tmo : Option Int) (start : Int)
    (data : List Char) (off : Nat) (t : Int)
    (rest : List (Int × Option (List Char))) (now : Int)
    (h : findFrom data pat off = none)
    (hd : deadlinePassed tmo start now = false)
    (hl : arrivesLate tmo start t = false) :
    readUntilGo pat tmo start ((t, none) :: rest) data off true now =
      .eofErr ⟨data, false, rest, max now t⟩ := by
  simp only [readUntilGo]
  rw [h]
  simp [hd, hl]

/-- A failed iteration dequeues the next chunk, appends it to the
accumulated text, and restarts the search from
`offset = max(len(data) - len(match), 0)` (lines 418–419). -/
lemma ru_step (pat : List Char) (tmo : Option Int) (start : Int)
    (data : List Char) (off : Nat) (t : Int) (c : List Char)
    (rest : List (Int × Option (List Char))) (now : Int)
    (h : findFrom data pat off = none)
    (hd : deadlinePassed tmo start now = false)
    (hl : arrivesLate tmo start t = false) :
    readUntilGo pat tmo start ((t, some c) :: rest) data off true now =
      readUntilGo pat tmo start rest (data ++ c) (data.length - pat.length) true (max now t) := by
  simp only [readUntilGo]
  rw [h]
  simp [hd, hl]

/-- A pattern matching the accumulated text ends the `expect` call. -/
lemma ex_found (pats : List RPat) (tmo : Option Int) (start : Int)
    (q : List (Int × Option (List Char))) (data : List Char) (rd : Bool)
    (now : Int) (k : Nat) (m : Nat × Nat) (h : firstMatch pats data = some (k, m)) :
    expectGo pats tmo start q data rd now =
      .ok k m (data.take m.2) ⟨data.drop m.2, rd, q, now⟩ := by
  cases q with
  | nil =>
    simp only [expectGo]
    rw [h]
  | cons x rest =>
    obtain ⟨t, item⟩ := x
    simp only [expectGo]
    rw [h]

/-- `expect`: elapsed deadline raises `TimeoutError`, retaining the text. -/
lemma ex_deadline (pats : List RPat) (tmo : Option Int) (start : Int)
    (q : List (Int × Option (List Char))) (data : List Char) (rd : Bool)
    (now : Int) (h : firstMatch pats data = none)
    (hd : deadlinePassed tmo start now = true) :
    expectGo pats tmo start q data rd now = .timeoutErr ⟨data, rd, q, now⟩ := by
  cases q with
  | nil =>
    simp only [expectGo]
    rw [h]
    simp [hd]
  | cons x rest =>
    obtain ⟨t, item⟩ := x
    simp only [expectGo]
    rw [h]
    simp [hd]

/-- `expect`: unreadable stream raises `EOFError` without dequeuing. -/
lemma ex_noread (pats : List RPat) (tmo : Option Int) (start : Int)
    (q : List (Int × Option (List Char))) (data : List Char)
    (now : Int) (h : firstMatch pats data = none)
    (hd : deadlinePassed tmo start now = false) :
    expectGo pats tmo start q data false now = .eofErr ⟨data, false, q, now⟩ := by
  cases q with
  | nil =>
    simp only [expectGo]
    rw [h]
    simp [hd]
  | cons x rest =>
    obtain ⟨t, item⟩ := x
    simp only [expectGo]
    rw [h]
    simp [hd]

/-- `expect`: dequeuing the sentinel raises `EOFError`, clears `_readable`. -/
lemma ex_eos (pats : List RPat) (tmo : Option Int) (start : Int)
    (data : List Char) (t : Int)
    (rest : List (Int × Option (List Char))) (now : Int)
    (h : firstMatch pats data = none)
    (hd : deadlinePassed tmo start now = false)
    (hl : arrivesLate tmo start t = false) :
    expectGo pats tmo start ((t, none) :: rest) data true now =
      .eofErr ⟨data, false, rest, max now t⟩ := by
  simp only [expectGo]
  rw [h]
  simp [hd, hl]

/-- `expect`: a failed iteration dequeues the next chunk and searches the
whole extended text again. -/
lemma ex_step (pats : List RPat) (tmo : Option Int) (start : Int)
    (data : List Char) (t : Int) (c : List Char)
    (rest : List (Int × Option (List Char))) (now : Int)
    (h : firstMatch pats data = none)
    (hd : deadlinePassed tmo start now = false)
    (hl : arrivesLate tmo start t = false) :
    expectGo pats tmo start ((t, some c) :: rest) data true now =
      expectGo pats tmo start rest (data ++ c) true (max now t) := by
  simp only [expectGo]
  rw [h]
  simp [hd, hl]

/-! ### Conservation of bytes across calls (no loss, no duplication) -/

/-- The text contained in a segment of the receiver queue (sentinel items
carry no text). -/
def chunkText : List (Int × Option (List Char)) → List Char
  | [] => []
  | (_, some c) :: rest => c ++ chunkText rest
  | (_, none) :: rest => chunkText rest

/-- Concatenation of a list of returned texts. -/
def joinTexts : List (List Char) → List Char
  | [] => []
  | t :: ts => t ++ joinTexts ts

lemma chunkText_append (q1 q2 : List (Int × Option (List Char))) :
    chunkText (q1 ++ q2) = chunkText q1 ++ chunkText q2 := by
  induction q1 with
  | nil => simp [chunkText]
  | cons x rest ih =>
    obtain ⟨t, item⟩ := x
    cases item <;> simp [chunkText, ih]

/-- Observable outcome of a `read_until` call: text returned to the caller
(empty when an exception was raised), the `_unconsumed` buffer and the
remaining queue.  `none` for a call that blocks forever. -/
def ruConsumed : RURes → Option (List Char × List Char × List (Int × Option (List Char)))
  | .ok ret s1 => some (ret, s1.unconsumed, s1.queue)
  | .timeoutErr s1 => some ([], s1.unconsumed, s1.queue)
  | .eofErr s1 => some ([], s1.unconsumed, s1.queue)
  | .diverge => none

/-- Observable outcome of an `expect` call, as for `ruConsumed`. -/
def exConsumed : ExpRes → Option (List Char × List Char × List (Int × Option (List Char)))
  | .ok _ _ ret s1 => some (ret, s1.unconsumed, s1.queue)
  | .timeoutErr s1 => some ([], s1.unconsumed, s1.queue)
  | .eofErr s1 => some ([], s1.unconsumed, s1.queue)
  | .diverge => none

/-- Without a timeout and with an exhausted queue, `Queue.get` blocks
forever. -/
lemma ru_diverge (pat : List Char) (start : Int) (data : List Char) (off : Nat)
    (now : Int) (h : findFrom data pat off = none) :
    readUntilGo pat none start [] data off true now = .diverge := by
  simp only [readUntilGo]
  rw [h]
  simp [deadlinePassed]

/-- `expect` analogue of `ru_diverge`. -/
lemma ex_diverge (pats : List RPat) (start : Int) (data : List Char)
    (now : Int) (h : firstMatch pats data = none) :
    expectGo pats none start [] data true now = .diverge := by
  simp only [expectGo]
  rw [h]
  simp [deadlinePassed]

/-- Byte conservation for one `read_until` iteration sequence: the
returned text followed by the final `_unconsumed` buffer equals the
entering accumulated text followed by the text of the dequeued queue
segment. -/
lemma ru_conserve (pat : List Char) (tmo : Option Int) (start : Int) :
    ∀ (q : List (Int × Option (List Char))) (data : List Char) (off : Nat) (rd : Bool)
      (now : Int) (ret unc : List Char) (rest : List (Int × Option (List Char))),
      ruConsumed (readUntilGo pat tmo start q data off rd now) = some (ret, unc, rest) →
      ∃ q1, q = q1 ++ rest ∧ ret ++ unc = data ++ chunkText q1 := by
  intro q
  induction q with
  | nil =>
    intro data off rd now ret unc rest h
    cases hf : findFrom data pat off with
    | some i =>
      rw [ru_found pat tmo start [] data off rd now i hf] at h
      simp only [ruConsumed, Option.some.injEq, Prod.mk.injEq] at h
      obtain ⟨rfl, rfl, rfl⟩ := h
      exact ⟨[], by simp, by simp [chunkText]⟩
    | none =>
      cases hd : deadlinePassed tmo start now with
      | true =>
        rw [ru_deadline pat tmo start [] data off rd now hf hd] at h
        simp only [ruConsumed, Option.some.injEq, Prod.mk.injEq] at h
        obtain ⟨rfl, rfl, rfl⟩ := h
        exact ⟨[], by simp, by simp [chunkText]⟩
      | false =>
        cases rd with
        | false =>
          rw [ru_noread pat tmo start [] data off now hf hd] at h
          simp only [ruConsumed, Option.some.injEq, Prod.mk.injEq] at h
          obtain ⟨rfl, rfl, rfl⟩ := h
          exact ⟨[], by simp, by simp [chunkText]⟩
        | true =>
          cases tmo with
          | none =>
            rw [ru_diverge pat start data off now hf] at h
            simp [ruConsumed] at h
          | some T =>
            rw [ru_empty pat T start data off now hf hd] at h
            simp only [ruConsumed, Option.some.injEq, Prod.mk.injEq] at h
            obtain ⟨rfl, rfl, rfl⟩ := h
            exact ⟨[], by simp, by simp [chunkText]⟩
  | cons x restq ih =>
    obtain ⟨t, item⟩ := x
    intro data off rd now ret unc rest h
    cases hf : findFrom data pat off with
    | some i =>
      rw [ru_found pat tmo start ((t, item) :: restq) data off rd now i hf] at h
      simp only [ruConsumed, Option.some.injEq, Prod.mk.injEq] at h
      obtain ⟨rfl, rfl, rfl⟩ := h
      exact ⟨[], by simp, by simp [chunkText]⟩
    | none =>
      cases hd : deadlinePassed tmo start now with
      | true =>
        rw [ru_deadline pat tmo start ((t, item) :: restq) data off rd now hf hd] at h
        simp only [ruConsumed, Option.some.injEq, Prod.mk.injEq] at h
        obtain ⟨rfl, rfl, rfl⟩ := h
        exact ⟨[], by simp, by simp [chunkText]⟩
      | false =>
        cases rd with
        | false =>
          rw [ru_noread pat tmo start ((t, item) :: restq) data off now hf hd] at h
          simp only [ruConsumed, Option.some.injEq, Prod.mk.injEq] at h
          obtain ⟨rfl, rfl, rfl⟩ := h
          exact ⟨[], by simp, by simp [chunkText]⟩
        | true =>
          cases hl : arrivesLate tmo start t with
          | true =>
            rw [ru_late pat tmo start data off t item restq now hf hd hl] at h
            simp only [ruConsumed, Option.some.injEq, Prod.mk.injEq] at h
            obtain ⟨rfl, rfl, rfl⟩ := h
            exact ⟨[], by simp, by simp [chunkText]⟩
          | false =>
            cases item with
            | none =>
              rw [ru_eos pat tmo start data off t restq now hf hd hl] at h
              simp only [ruConsumed, Option.some.injEq, Prod.mk.injEq] at h
              obtain ⟨rfl, rfl, rfl⟩ := h
              exact ⟨[(t, none)], by simp, by simp [chunkText]⟩
            | some c =>
              rw [ru_step pat tmo start data off t c restq now hf hd hl] at h
              obtain ⟨q1, hq1, htext⟩ :=
                ih (data ++ c) (data.length - pat.length) true (max now t) ret unc rest h
              refine ⟨(t, some c) :: q1, by simp [hq1], ?_⟩
              rw [htext]
              simp [chunkText]
    
/-- Byte conservation for one `expect` iteration sequence. -/
lemma ex_conserve (pats : List RPat) (tmo : Option Int) (start : Int) :
    ∀ (q : List (Int × Option (List Char))) (data : List Char) (rd : Bool)
      (now : Int) (ret unc : List Char) (rest : List (Int × Option (List Char))),
      exConsumed (expectGo pats tmo start q data rd now) = some (ret, unc, rest) →
      ∃ q1, q = q1 ++ rest ∧ ret ++ unc = data ++ chunkText q1 := by
  intro q
  induction q with
  | nil =>
    intro data rd now ret unc rest h
    cases hf : firstMatch pats data with
    | some km =>
      obtain ⟨k, m⟩ := km
      rw [ex_found pats tmo start [] data rd now k m hf] at h
      simp only [exConsumed, Option.some.injEq, Prod.mk.injEq] at h
      obtain ⟨rfl, rfl, rfl⟩ := h
      exact ⟨[], by simp, by simp [chunkText]⟩
    | none =>
      cases hd : deadlinePassed tmo start now with
      | true =>
        rw [ex_deadline pats tmo start [] data rd now hf hd] at h
        simp only [exConsumed, Option.some.injEq, Prod.mk.injEq] at h
        obtain ⟨rfl, rfl, rfl⟩ := h
        exact ⟨[], by simp, by simp [chunkText]⟩
      | false =>
        cases rd with
        | false =>
          rw [ex_noread pats tmo start [] data now hf hd] at h
          simp only [exConsumed, Option.some.injEq, Prod.mk.injEq] at h
          obtain ⟨rfl, rfl, rfl⟩ := h
          exact ⟨[], by simp, by simp [chunkText]⟩
        | true =>
          cases tmo with
          | none =>
            rw [ex_diverge pats start data now hf] at h
            simp [exConsumed] at h
          | some T =>
            have he : expectGo pats (some T) start [] data true now =
                .timeoutErr ⟨data, true, [], now⟩ := by
              simp only [expectGo]
              rw [hf]
              simp [hd]
            rw [he] at h
            simp only [exConsumed, Option.some.injEq, Prod.mk.injEq] at h
            obtain ⟨rfl, rfl, rfl⟩ := h
            exact ⟨[], by simp, by simp [chunkText]⟩
  | cons x restq ih =>
    obtain ⟨t, item⟩ := x
    intro data rd now ret unc rest h
    cases hf : firstMatch pats data with
    | some km =>
      obtain ⟨k, m⟩ := km
      rw [ex_found pats tmo start ((t, item) :: restq) data rd now k m hf] at h
      simp only [exConsumed, Option.some.injEq, Prod.mk.injEq] at h
      obtain ⟨rfl, rfl, rfl⟩ := h
      exact ⟨[], by simp, by simp [chunkText]⟩
    | none =>
      cases hd : deadlinePassed tmo start now with
      | true =>
        rw [ex_deadline pats tmo start ((t, item) :: restq) data rd now hf hd] at h
        simp only [exConsumed, Option.some.injEq, Prod.mk.injEq] at h
        obtain ⟨rfl, rfl, rfl⟩ := h
        exact ⟨[], by simp, by simp [chunkText]⟩
      | false =>
        cases rd with
        | false =>
          rw [ex_noread pats tmo start ((t, item) :: restq) data now hf hd] at h
          simp only [exConsumed, Option.some.injEq, Prod.mk.injEq] at h
          obtain ⟨rfl, rfl, rfl⟩ := h
          exact ⟨[], by simp, by simp [chunkText]⟩
        | true =>
          cases hl : arrivesLate tmo start t with
          | true =>
            have he : expectGo pats tmo start ((t, item) :: restq) data true now =
                .timeoutErr ⟨data, true, (t, item) :: restq, now⟩ := by
              simp only [expectGo]
              rw [hf]
              simp [hd, hl]
            rw [he] at h
            simp only [exConsumed, Option.some.injEq, Prod.mk.injEq] at h
            obtain ⟨rfl, rfl, rfl⟩ := h
            exact ⟨[], by simp, by simp [chunkText]⟩
          | false =>
            cases item with
            | none =>
              rw [ex_eos pats tmo start data t restq now hf hd hl] at h
              simp only [exConsumed, Option.some.injEq, Prod.mk.injEq] at h
              obtain ⟨rfl, rfl, rfl⟩ := h
              exact ⟨[(t, none)], by simp, by simp [chunkText]⟩
            | some c =>
              rw [ex_step pats tmo start data t c restq now hf hd hl] at h
              obtain ⟨q1, hq1, htext⟩ := ih (data ++ c) true (max now t) ret unc rest h
              refine ⟨(t, some c) :: q1, by simp [hq1], ?_⟩
              rw [htext]
              simp [chunkText]

/-- One logical caller driving the matcher: a sequence of `read_until` and
`expect` calls on the same connection. -/
inductive Call where
  | ru (pat : List Char) (tmo : Option Int)
  | ex (pats : List RPat) (tmo : Option Int)

/-- Run a sequence of `read_until` / `expect` calls, collecting the text
returned by the successful ones.  A raised `TimeoutError` or `EOFError`
is caught by the caller, who continues with the next call; a call that
blocks forever makes the whole run undefined (`none`). -/
def runCalls : List Call → CState → Option (List (List Char) × CState)
  | [], s => some ([], s)
  | Call.ru pat tmo :: cs, s =>
    match readUntil pat tmo s with
    | .ok ret s1 => (runCalls cs s1).map fun x => (ret :: x.1, x.2)
    | .timeoutErr s1 => runCalls cs s1
    | .eofErr s1 => runCalls cs s1
    | .diverge => none
  | Call.ex pats tmo :: cs, s =>
    match expect pats tmo s with
    | .ok _ _ ret s1 => (runCalls cs s1).map fun x => (ret :: x.1, x.2)
    | .timeoutErr s1 => runCalls cs s1
    | .eofErr s1 => runCalls cs s1
    | .diverge => none

/-- Per-call conservation, at the `readUntil` entry point. -/
lemma readUntil_conserve (pat : List Char) (tmo : Option Int) (s : CState)
    (ret unc : List Char) (rest : List (Int × Option (List Char)))
    (h : ruConsumed (readUntil pat tmo s) = some (ret, unc, rest)) :
    ∃ q1, s.queue = q1 ++ rest ∧ ret ++ unc = s.unconsumed ++ chunkText q1 :=
  ru_conserve pat tmo s.now s.queue s.unconsumed 0 s.readable s.now ret unc rest h

/-- Per-call conservation, at the `expect` entry point. -/
lemma expect_conserve (pats : List RPat) (tmo : Option Int) (s : CState)
    (ret unc : List Char) (rest : List (Int × Option (List Char)))
    (h : exConsumed (expect pats tmo s) = some (ret, unc, rest)) :
    ∃ q1, s.queue = q1 ++ rest ∧ ret ++ unc = s.unconsumed ++ chunkText q1 :=
  ex_conserve pats tmo s.now s.queue s.unconsumed s.readable s.now ret unc rest h

/-! ## Claims -/

/-- C1: No-loss/no-duplication invariant of the stream matcher: for every
sequence of text chunks enqueued on the matching queue and every sequence
of `read_until`/`expect` calls on the same connection, the concatenation
of all text returned by those calls followed by the current unconsumed
buffer equals the concatenation of the initial unconsumed buffer and all
dequeued chunks; no byte is ever returned twice and no byte is ever
skipped. -/
theorem claim_C1_no_loss :
    ∀ (calls : List Call) (s : CState) (rets : List (List Char)) (s1 : CState),
      runCalls calls s = some (rets, s1) →
      ∃ q1, s.queue = q1 ++ s1.queue ∧
        joinTexts rets ++ s1.unconsumed = s.unconsumed ++ chunkText q1 := by
  intro calls
  induction calls with
  | nil =>
    intro s rets s1 h
    simp only [runCalls, Option.some.injEq, Prod.mk.injEq] at h
    obtain ⟨rfl, rfl⟩ := h
    exact ⟨[], by simp, by simp [joinTexts, chunkText]⟩
  | cons c cs ih =>
    intro s rets s1 h
    cases c with
    | ru pat tmo =>
      simp only [runCalls] at h
      cases hr : readUntil pat tmo s with
      | ok ret s2 =>
        rw [hr] at h
        simp only [Option.map_eq_some'] at h
        obtain ⟨⟨rets2, s3⟩, hrun, heq⟩ := h
        simp only [Prod.mk.injEq] at heq
        obtain ⟨rfl, rfl⟩ := heq
        obtain ⟨q1, hq1, ht1⟩ :=
          readUntil_conserve pat tmo s ret s2.unconsumed s2.queue (by rw [hr]; rfl)
        obtain ⟨q2, hq2, ht2⟩ := ih s2 rets2 s3 hrun
        refine ⟨q1 ++ q2, by rw [hq1, hq2, List.append_assoc], ?_⟩
        rw [chunkText_append]
        calc joinTexts (ret :: rets2) ++ s3.unconsumed
            = ret ++ (joinTexts rets2 ++ s3.unconsumed) := by
              simp [joinTexts, List.append_assoc]
          _ = ret ++ (s2.unconsumed ++ chunkText q2) := by rw [ht2]
          _ = (ret ++ s2.unconsumed) ++ chunkText q2 := by rw [List.append_assoc]
          _ = (s.unconsumed ++ chunkText q1) ++ chunkText q2 := by rw [ht1]
          _ = s.unconsumed ++ (chunkText q1 ++ chunkText q2) := by rw [List.append_assoc]
      | timeoutErr s2 =>
        rw [hr] at h
        obtain ⟨q1, hq1, ht1⟩ :=
          readUntil_conserve pat tmo s [] s2.unconsumed s2.queue (by rw [hr]; rfl)
        obtain ⟨q2, hq2, ht2⟩ := ih s2 rets s1 h
        simp only [List.nil_append] at ht1
        refine ⟨q1 ++ q2, by rw [hq1, hq2, List.append_assoc], ?_⟩
        rw [chunkText_append]
        calc joinTexts rets ++ s1.unconsumed
            = s2.unconsumed ++ chunkText q2 := ht2
          _ = (s.unconsumed ++ chunkText q1) ++ chunkText q2 := by rw [ht1]
          _ = s.unconsumed ++ (chunkText q1 ++ chunkText q2) := by rw [List.append_assoc]
      | eofErr s2 =>
        rw [hr] at h
        obtain ⟨q1, hq1, ht1⟩ :=
          readUntil_conserve pat tmo s [] s2.unconsumed s2.queue (by rw [hr]; rfl)
        obtain ⟨q2, hq2, ht2⟩ := ih s2 rets s1 h
        simp only [List.nil_append] at ht1
        refine ⟨q1 ++ q2, by rw [hq1, hq2, List.append_assoc], ?_⟩
        rw [chunkText_append]
        calc joinTexts rets ++ s1.unconsumed
            = s2.unconsumed ++ chunkText q2 := ht2
          _ = (s.unconsumed ++ chunkText q1) ++ chunkText q2 := by rw [ht1]
          _ = s.unconsumed ++ (chunkText q1 ++ chunkText q2) := by rw [List.append_assoc]
      | diverge =>
        rw [hr] at h
        simp at h
    | ex pats tmo =>
      simp only [runCalls] at h
      cases hr : expect pats tmo s with
      | ok k m ret s2 =>
        rw [hr] at h
        simp only [Option.map_eq_some'] at h
        obtain ⟨⟨rets2, s3⟩, hrun, heq⟩ := h
        simp only [Prod.mk.injEq] at heq
        obtain ⟨rfl, rfl⟩ := heq
        obtain ⟨q1, hq1, ht1⟩ :=
          expect_conserve pats tmo s ret s2.unconsumed s2.queue (by rw [hr]; rfl)
        obtain ⟨q2, hq2, ht2⟩ := ih s2 rets2 s3 hrun
        refine ⟨q1 ++ q2, by rw [hq1, hq2, List.append_assoc], ?_⟩
        rw [chunkText_append]
        calc joinTexts (ret :: rets2) ++ s3.unconsumed
            = ret ++ (joinTexts rets2 ++ s3.unconsumed) := by
              simp [joinTexts, List.append_assoc]
          _ = ret ++ (s2.unconsumed ++ chunkText q2) := by rw [ht2]
          _ = (ret ++ s2.unconsumed) ++ chunkText q2 := by rw [List.append_assoc]
          _ = (s.unconsumed ++ chunkText q1) ++ chunkText q2 := by rw [ht1]
          _ = s.unconsumed ++ (chunkText q1 ++ chunkText q2) := by rw [List.append_assoc]
      | timeoutErr s2 =>
        rw [hr] at h
        obtain ⟨q1, hq1, ht1⟩ :=
          expect_conserve pats tmo s [] s2.unconsumed s2.queue (by rw [hr]; rfl)
        obtain ⟨q2, hq2, ht2⟩ := ih s2 rets s1 h
        simp only [List.nil_append] at ht1
        refine ⟨q1 ++ q2, by rw [hq1, hq2, List.append_assoc], ?_⟩
        rw [chunkText_append]
        calc joinTexts rets ++ s1.unconsumed
            = s2.unconsumed ++ chunkText q2 := ht2
          _ = (s.unconsumed ++ chunkText q1) ++ chunkText q2 := by rw [ht1]
          _ = s.unconsumed ++ (chunkText q1 ++ chunkText q2) := by rw [List.append_assoc]
      | eofErr s2 =>
        rw [hr] at h
        obtain ⟨q1, hq1, ht1⟩ :=
          expect_conserve pats tmo s [] s2.unconsumed s2.queue (by rw [hr]; rfl)
        obtain ⟨q2, hq2, ht2⟩ := ih s2 rets s1 h
        simp only [List.nil_append] at ht1
        refine ⟨q1 ++ q2, by rw [hq1, hq2, List.append_assoc], ?_⟩
        rw [chunkText_append]
        calc joinTexts rets ++ s1.unconsumed
            = s2.unconsumed ++ chunkText q2 := ht2
          _ = (s.unconsumed ++ chunkText q1) ++ chunkText q2 := by rw [ht1]
          _ = s.unconsumed ++ (chunkText q1 ++ chunkText q2) := by rw [List.append_assoc]
      | diverge =>
        rw [hr] at h
        simp at h

/-- Witness for C1 at a concrete run: `read_until("bc")` consuming one
chunk across the buffer boundary, then `read_until("zz", 5)` hitting the
end-of-stream sentinel. -/
theorem claim_C1_no_loss_witness :
    ∃ q1, ([(0, some ['c', 'd']), (1, none)] : List (Int × Option (List Char))) =
        q1 ++ ([] : List (Int × Option (List Char))) ∧
      joinTexts [['a', 'b', 'c']] ++ ['d'] = ['a', 'b'] ++ chunkText q1 :=
  claim_C1_no_loss [Call.ru ['b', 'c'] none, Call.ru ['z', 'z'] (some 5)]
    ⟨['a', 'b'], true, [(0, some ['c', 'd']), (1, none)], 0⟩
    [['a', 'b', 'c']] ⟨['d'], false, [], 1⟩ (by decide)

/-- C2: `read_until(target, timeout)` finds a target split across two
queue deliveries.  First part: starting from an empty unconsumed buffer,
when the first occurrence of `pat` in `c1 ++ c2` spans the boundary
between the two chunks (and the deadline bookkeeping lets both dequeues
happen), `read_until` returns everything up to and including that first
occurrence and leaves the rest as the unconsumed buffer.  Second part: on
each failed iteration the next search starts from offset
`max(0, len(text) - len(target))` of the previously searched text. -/
theorem claim_C2_split_match :
    (∀ (pat c1 c2 : List Char) (i : Nat) (tmo : Option Int) (now t1 t2 : Int),
      findFrom (c1 ++ c2) pat 0 = some i →
      i < c1.length → c1.length < i + pat.length →
      deadlinePassed tmo now now = false →
      arrivesLate tmo now t1 = false →
      deadlinePassed tmo now (max now t1) = false →
      arrivesLate tmo now t2 = false →
      readUntil pat tmo ⟨[], true, [(t1, some c1), (t2, some c2)], now⟩ =
        .ok ((c1 ++ c2).take (i + pat.length))
          ⟨(c1 ++ c2).drop (i + pat.length), true, [], max (max now t1) t2⟩) ∧
    (∀ (pat : List Char) (tmo : Option Int) (start : Int) (data : List Char) (off : Nat)
        (t : Int) (c : List Char) (rest : List (Int × Option (List Char))) (now : Int),
      findFrom data pat off = none →
      deadlinePassed tmo start now = false →
      arrivesLate tmo start t = false →
      readUntilGo pat tmo start ((t, some c) :: rest) data off true now =
        readUntilGo pat tmo start rest (data ++ c) (max (data.length - pat.length) 0) true
          (max now t)) := by
  constructor
  · intro pat c1 c2 i tmo now t1 t2 hfind hlo hhi hd0 ha1 hd1 ha2
    have hplen : 0 < pat.length := by omega
    obtain ⟨-, hpre, hmin⟩ := findFrom_some (c1 ++ c2) pat 0 i hfind
    have hA : findFrom [] pat 0 = none := by
      apply findFrom_eq_none
      intro j _ hp
      have hle := hp.length_le
      simp only [List.drop_nil, List.length_nil] at hle
      omega
    have hB : findFrom c1 pat 0 = none := by
      apply findFrom_eq_none
      intro j _ hp
      have hlen : pat.length ≤ c1.length - j := by
        have := hp.length_le
        simpa using this
      have hp2 : pat <+: (c1 ++ c2).drop j := by
        rw [List.drop_append_of_le_length (by omega)]
        exact hp.trans (List.prefix_append _ _)
      rcases Nat.lt_or_ge j i with hji | hji
      · exact hmin j (Nat.zero_le _) hji hp2
      · omega
    have hC : findFrom (c1 ++ c2) pat (c1.length - pat.length) = some i := by
      apply findFrom_eq_some
      · omega
      · exact hpre
      · intro j hj1 hj2
        exact hmin j (Nat.zero_le _) hj2
    show readUntilGo pat tmo now [(t1, some c1), (t2, some c2)] [] 0 true now = _
    rw [ru_step pat tmo now [] 0 t1 c1 [(t2, some c2)] now hA hd0 ha1]
    simp only [List.nil_append, List.length_nil, Nat.zero_sub]
    rw [ru_step pat tmo now c1 0 t2 c2 [] (max now t1) hB hd1 ha2]
    rw [ru_found pat tmo now [] (c1 ++ c2) (c1.length - pat.length) true
      (max (max now t1) t2) i hC]
  · intro pat tmo start data off t c rest now h hd hl
    rw [Nat.max_zero]
    exact ru_step pat tmo start data off t c rest now h hd hl

/-- Witness for C2: target `abcde` split as chunk 1 = `xabc`,
chunk 2 = `de` (the spec's own example), with a 10-second timeout; and a
concrete offset-recomputation step. -/
theorem claim_C2_split_match_witness :
    readUntil ['a', 'b', 'c', 'd', 'e'] (some 10)
        ⟨[], true, [(1, some ['x', 'a', 'b', 'c']), (2, some ['d', 'e'])], 0⟩ =
      .ok ['x', 'a', 'b', 'c', 'd', 'e'] ⟨[], true, [], 2⟩ ∧
    readUntilGo ['a'] none 0 [(1, some ['c'])] ['b'] 0 true 0 =
      readUntilGo ['a'] none 0 [] ['b', 'c'] 0 true 1 :=
  ⟨claim_C2_split_match.1 ['a', 'b', 'c', 'd', 'e'] ['x', 'a', 'b', 'c'] ['d', 'e'] 1
      (some 10) 0 1 2 (by decide) (by decide) (by decide) (by decide) (by decide)
      (by decide) (by decide),
    claim_C2_split_match.2 ['a'] none 0 ['b'] 0 1 ['c'] [] 0 (by decide) (by decide)
      (by decide)⟩

/-- C3: Terminal conditions of `read_until`/`expect`.
(1) With a finite timeout, when the wall-clock deadline measured from
call entry has elapsed before any match, the call raises `TimeoutError`;
(2) likewise when the next queue item only arrives after the absolute
deadline (`Queue.get` raises `Empty`), and the item is not consumed;
(3) dequeuing the end-of-stream sentinel before any match raises
`EOFError` and clears the `_readable` flag;
(4) afterwards every `read_until` call that finds no match in the
retained buffer raises `EOFError` again without dequeuing anything;
(5), (6): the same sentinel/afterwards behaviour for `expect`.
In every error case the whole accumulated text is retained in the
`_unconsumed` buffer, and the connection itself is left open (the model
has no close transition: the state, including the queue, is returned
unchanged except for `_readable`). -/
theorem claim_C3_terminal :
    (∀ (pat : List Char) (T start : Int) (q : List (Int × Option (List Char)))
        (data : List Char) (off : Nat) (rd : Bool) (now : Int),
      findFrom data pat off = none → T - (now - start) ≤ 0 →
      readUntilGo pat (some T) start q data off rd now = .timeoutErr ⟨data, rd, q, now⟩) ∧
    (∀ (pat : List Char) (T start : Int) (data : List Char) (off : Nat) (t : Int)
        (item : Option (List Char)) (rest : List (Int × Option (List Char))) (now : Int),
      findFrom data pat off = none → ¬(T - (now - start) ≤ 0) → start + T < t →
      readUntilGo pat (some T) start ((t, item) :: rest) data off true now =
        .timeoutErr ⟨data, true, (t, item) :: rest, now⟩) ∧
    (∀ (pat : List Char) (tmo : Option Int) (start : Int) (data : List Char) (off : Nat)
        (t : Int) (rest : List (Int × Option (List Char))) (now : Int),
      findFrom data pat off = none → deadlinePassed tmo start now = false →
      arrivesLate tmo start t = false →
      readUntilGo pat tmo start ((t, none) :: rest) data off true now =
        .eofErr ⟨data, false, rest, max now t⟩) ∧
    (∀ (pat : List Char) (tmo : Option Int) (u : List Char)
        (q : List (Int × Option (List Char))) (now : Int),
      findFrom u pat 0 = none → deadlinePassed tmo now now = false →
      readUntil pat tmo ⟨u, false, q, now⟩ = .eofErr ⟨u, false, q, now⟩) ∧
    (∀ (pats : List RPat) (tmo : Option Int) (start : Int) (data : List Char)
        (t : Int) (rest : List (Int × Option (List Char))) (now : Int),
      firstMatch pats data = none → deadlinePassed tmo start now = false →
      arrivesLate tmo start t = false →
      expectGo pats tmo start ((t, none) :: rest) data true now =
        .eofErr ⟨data, false, rest, max now t⟩) ∧
    (∀ (pats : List RPat) (tmo : Option Int) (u : List Char)
        (q : List (Int × Option (List Char))) (now : Int),
      firstMatch pats u = none → deadlinePassed tmo now now = false →
      expect pats tmo ⟨u, false, q, now⟩ = .eofErr ⟨u, false, q, now⟩) := by
  refine ⟨?_, ?_, ?_, ?_, ?_, ?_⟩
  · intro pat T start q data off rd now h h2
    exact ru_deadline pat (some T) start q data off rd now h
      (by simp only [deadlinePassed]; exact decide_eq_true h2)
  · intro pat T start data off t item rest now h h2 h3
    exact ru_late pat (some T) start data off t item rest now h
      (by simp only [deadlinePassed]; exact decide_eq_false h2)
      (by simp only [arrivesLate]; exact decide_eq_true h3)
  · intro pat tmo start data off t rest now h hd hl
    exact ru_eos pat tmo start data off t rest now h hd hl
  · intro pat tmo u q now h hd
    exact ru_noread pat tmo now q u 0 now h hd
  · intro pats tmo start data t rest now h hd hl
    exact ex_eos pats tmo start data t rest now h hd hl
  · intro pats tmo u q now h hd
    exact ex_noread pats tmo now q u now h hd

/-- Witness for C3: each terminal condition exercised at a concrete
input (a zero deadline; an item arriving past the deadline; the sentinel;
a post-end-of-stream `read_until` and `expect`). -/
theorem claim_C3_terminal_witness :
    readUntilGo ['a'] (some 0) 0 [] ['b'] 0 true 0 = .timeoutErr ⟨['b'], true, [], 0⟩ ∧
    readUntilGo ['a'] (some 5) 0 [(7, some ['a'])] ['b'] 0 true 0 =
      .timeoutErr ⟨['b'], true, [(7, some ['a'])], 0⟩ ∧
    readUntilGo ['a'] none 0 [(1, none)] ['b'] 0 true 0 =
      .eofErr ⟨['b'], false, [], 1⟩ ∧
    readUntil ['a'] none ⟨['b'], false, [(5, some ['x'])], 3⟩ =
      .eofErr ⟨['b'], false, [(5, some ['x'])], 3⟩ ∧
    expectGo [fun _ => none] none 0 [(1, none)] ['b'] true 0 =
      .eofErr ⟨['b'], false, [], 1⟩ ∧
    expect [fun _ => none] none ⟨['b'], false, [(5, some ['x'])], 3⟩ =
      .eofErr ⟨['b'], false, [(5, some ['x'])], 3⟩ :=
  ⟨claim_C3_terminal.1 ['a'] 0 0 [] ['b'] 0 true 0 (by decide) (by decide),
    claim_C3_terminal.2.1 ['a'] 5 0 ['b'] 0 7 (some ['a']) [] 0 (by decide) (by decide)
      (by decide),
    claim_C3_terminal.2.2.1 ['a'] none 0 ['b'] 0 1 [] 0 (by decide) (by decide) (by decide),
    claim_C3_terminal.2.2.2.1 ['a'] none ['b'] [(5, some ['x'])] 3 (by decide) (by decide),
    claim_C3_terminal.2.2.2.2.1 [fun _ => none] none 0 ['b'] 1 [] 0 (by rfl) (by rfl)
      (by rfl),
    claim_C3_terminal.2.2.2.2.2 [fun _ => none] none ['b'] [(5, some ['x'])] 3 (by rfl)
      (by rfl)⟩

/-- C4: Negotiation refusal with correct polarity.  For every byte
sequence of the form `pre ++ [IAC, cmd, opt] ++ post` in which the
negotiation actually starts at a command boundary (the filter consumes
`pre` completely, in any subnegotiation state), a `DO`/`DONT` command
produces exactly one extra reply `IAC WONT opt`, a `WILL`/`WONT` command
exactly one extra reply `IAC DONT opt`, and the clean output is exactly
the output of `pre` followed by the output of `post` — none of the three
negotiation bytes reaches the clean output. -/
theorem claim_C4_refusal (pre post : List Nat) (cmd opt : Nat) (o : List Nat)
    (r : List (List Nat)) (s : Bool) (h : processRaw false pre = some (o, r, s)) :
    ((cmd = DO ∨ cmd = DONT) →
      processRaw false (pre ++ IAC :: cmd :: opt :: post) =
        (processRaw s post).map fun x => (o ++ x.1, r ++ [IAC, WONT, opt] :: x.2.1, x.2.2)) ∧
    ((cmd = WILL ∨ cmd = WONT) →
      processRaw false (pre ++ IAC :: cmd :: opt :: post) =
        (processRaw s post).map fun x => (o ++ x.1, r ++ [IAC, DONT, opt] :: x.2.1, x.2.2)) := by
  constructor
  · intro hc
    rw [processRaw_append false pre (IAC :: cmd :: opt :: post) o r s h,
      processRaw_do_reply s cmd opt post hc, Option.map_map]
    cases hys : processRaw s post <;> simp [hys]
  · intro hc
    rw [processRaw_append false pre (IAC :: cmd :: opt :: post) o r s h,
      processRaw_will_reply s cmd opt post hc, Option.map_map]
    cases hys : processRaw s post <;> simp [hys]

/-- Witness for C4: a `DO 1` and a `WILL 2` negotiation embedded between
plain text bytes. -/
theorem claim_C4_refusal_witness :
    processRaw false ([65] ++ IAC :: DO :: 1 :: [66]) =
      ((processRaw false [66]).map fun x =>
        ([65] ++ x.1, [] ++ [IAC, WONT, 1] :: x.2.1, x.2.2)) ∧
    processRaw false ([70] ++ IAC :: WILL :: 2 :: [66]) =
      ((processRaw false [66]).map fun x =>
        ([70] ++ x.1, [] ++ [IAC, DONT, 2] :: x.2.1, x.2.2)) :=
  ⟨(claim_C4_refusal [65] [66] DO 1 [65] [] false (by decide)).1 (Or.inl rfl),
    (claim_C4_refusal [70] [66] WILL 2 [70] [] false (by decide)).2 (Or.inl rfl)⟩

/-- C5 counterexample: chunk-boundary invariance fails.  The `receiver`
thread runs every chunk through a fresh `process_raw_data` generator
(line 214), so the `sub_negotiation` flag is reset to `False` at each
chunk boundary.  Splitting `IAC SB 65 IAC SE` after `IAC SB` makes the
byte 65 — swallowed by subnegotiation when the sequence is fed whole —
reach the clean output. -/
theorem claim_C5_counterexample :
    receiverFeed [[IAC, SB, 65, IAC, SE]] = some [] ∧
    receiverFeed [[IAC, SB], [65, IAC, SE]] = some [65] ∧
    receiverFeed [[IAC, SB], [65, IAC, SE]] ≠ receiverFeed [[IAC, SB, 65, IAC, SE]] := by
  decide

/-- C5 (amended): chunk-boundary invariance holds exactly when the filter
state at the split is the initial state: if processing the first
sub-chunk from the initial state completes without truncation and ends
with `sub_negotiation = False`, feeding the two sub-chunks sequentially
produces the same clean output as feeding the whole sequence as one
chunk.  (The code resets the parsing state for each chunk, so a split
inside a subnegotiation changes the output, and a split inside a
multi-byte command crashes the filter on the first chunk.) -/
theorem claim_C5_amended (xs ys : List Nat) (o : List Nat) (r : List (List Nat))
    (h : processRaw false xs = some (o, r, false)) :
    receiverFeed [xs ++ ys] = receiverFeed [xs, ys] := by
  simp only [receiverFeed]
  rw [processRaw_append false xs ys o r false h, h]
  cases hys : processRaw false ys <;> simp [hys]

/-- Witness for the amended C5: a complete subnegotiation followed by a
plain byte, split after the subnegotiation. -/
theorem claim_C5_amended_witness :
    receiverFeed [[IAC, SB, 65, IAC, SE] ++ [66]] =
      receiverFeed [[IAC, SB, 65, IAC, SE], [66]] :=
  claim_C5_amended [IAC, SB, 65, IAC, SE] [66] [] [] (by decide)

/-- C6: a chunk ending in the middle of a telnet command crashes the
filter.  The generator's bare `next(raw_sequence)` (lines 64, 67, 72)
raises `StopIteration`, which Python ≥ 3.7 (PEP 479) converts to
`RuntimeError: generator raised StopIteration`; the exception propagates
out of `list(process_raw_data(...))` and kills the receiver thread.  The
claim (and the spec) say the filter must *not* crash and must treat the
truncation as the end of the chunk, so this is a bug in the code. -/
theorem claim_C6_truncation_crash :
    processRaw false [IAC] = none ∧
    processRaw false [IAC, DO] = none ∧
    receiverFeed [[65, IAC]] = none := by
  decide

/-- C7 counterexample: it is *not* true that no input byte reaches the
clean output while in subnegotiation mode.  `IAC` commands are processed
before the `sub_negotiation` check (line 62 precedes line 94), so the
escaped pair `IAC IAC` inside a subnegotiation still emits byte 255: for
`IAC SB IAC IAC IAC SE` every interior byte lies between `SB` and `SE`,
yet the clean output is `[255]`. -/
theorem claim_C7_counterexample :
    processRaw false [IAC, SB, IAC, IAC, IAC, SE] = some ([IAC], [], false) := by
  decide

/-- C7 (amended): outside any command, bytes 0 and 17 are dropped and an
escaped `IAC IAC` pair emits a single 255 (in either mode); outside
subnegotiation every other byte passes through unchanged; while in
subnegotiation every byte that does not start an `IAC` command sequence
is dropped — but `IAC` commands (including the escaped `IAC IAC` pair,
which still emits 255) remain active until `IAC SE`. -/
theorem claim_C7_filter_rules :
    (∀ (sn : Bool) (rest : List Nat),
      processRaw sn (NULL :: rest) = processRaw sn rest ∧
      processRaw sn (17 :: rest) = processRaw sn rest) ∧
    (∀ (sn : Bool) (rest : List Nat),
      processRaw sn (IAC :: IAC :: rest) =
        (processRaw sn rest).map fun x => (IAC :: x.1, x.2.1, x.2.2)) ∧
    (∀ (b : Nat) (rest : List Nat), ¬b = IAC → ¬(b = NULL ∨ b = 17) →
      processRaw false (b :: rest) =
        (processRaw false rest).map fun x => (b :: x.1, x.2.1, x.2.2)) ∧
    (∀ (b : Nat) (rest : List Nat), ¬b = IAC →
      processRaw true (b :: rest) = processRaw true rest) := by
  refine ⟨fun sn rest => ⟨?_, ?_⟩, processRaw_escaped, processRaw_pass,
    processRaw_subneg_drop⟩
  · exact processRaw_ignorable sn NULL rest (by decide) (Or.inl rfl)
  · exact processRaw_ignorable sn 17 rest (by decide) (Or.inr rfl)

/-- Witness for the amended C7: a dropped NUL, a pass-through byte, and a
dropped byte inside subnegotiation. -/
theorem claim_C7_filter_rules_witness :
    processRaw false [NULL, 65] = processRaw false [65] ∧
    processRaw false [65] =
      ((processRaw false []).map fun x => (65 :: x.1, x.2.1, x.2.2)) ∧
    processRaw true [66, IAC, SE] = processRaw true [IAC, SE] :=
  ⟨(claim_C7_filter_rules.1 false [65]).1,
    claim_C7_filter_rules.2.2.1 65 [] (by decide) (by decide),
    claim_C7_filter_rules.2.2.2 66 [IAC, SE] (by decide)⟩

/-- C8: `expect` ordering and result.  (1) `firstMatch` returns the first
pattern in the caller-supplied list order that matches the accumulated
text — with no condition whatsoever on where (or whether) later-listed
patterns match, so a later pattern matching at an earlier position does
not win; (2) on any accumulation step, when some pattern matches, the
call returns that pattern's index and match span together with the text
up to and including the match end, and the unconsumed buffer becomes the
text after the match end; (3) the same at call entry, where the whole
accumulated text is the unconsumed buffer. -/
theorem claim_C8_expect_order :
    (∀ (l1 l2 : List RPat) (p : RPat) (d : List Char) (m : Nat × Nat),
      (∀ q ∈ l1, q d = none) → p d = some m →
      firstMatch (l1 ++ p :: l2) d = some (l1.length, m)) ∧
    (∀ (pats : List RPat) (tmo : Option Int) (start : Int)
        (q : List (Int × Option (List Char))) (data : List Char) (rd : Bool)
        (now : Int) (k : Nat) (m : Nat × Nat),
      firstMatch pats data = some (k, m) →
      expectGo pats tmo start q data rd now =
        .ok k m (data.take m.2) ⟨data.drop m.2, rd, q, now⟩) ∧
    (∀ (pats : List RPat) (tmo : Option Int) (s : CState) (k : Nat) (m : Nat × Nat),
      firstMatch pats s.unconsumed = some (k, m) →
      expect pats tmo s =
        .ok k m (s.unconsumed.take m.2) ⟨s.unconsumed.drop m.2, s.readable, s.queue, s.now⟩) := by
  refine ⟨?_, ex_found, ?_⟩
  · intro l1
    induction l1 with
    | nil =>
      intro l2 p d m _ hp
      simp [firstMatch, hp]
    | cons q0 l1 ih =>
      intro l2 p d m hnone hp
      have hq0 : q0 d = none := hnone q0 (by simp)
      have hrec := ih l2 p d m (fun q hq => hnone q (by simp [hq])) hp
      simp [firstMatch, hq0, hrec]
  · intro pats tmo s k m h
    exact ex_found pats tmo s.now s.queue s.unconsumed s.readable s.now k m h

/-- Witness for C8: three patterns — one that never matches, one matching
with span `(1, 2)`, and a later one matching at the earlier position
`(0, 0)` — tried against buffer `ab`; the call returns the second
pattern (index 1) even though the third matches earlier in the text. -/
theorem claim_C8_expect_order_witness :
    firstMatch [fun _ => none, fun _ => some (1, 2), fun _ => some (0, 0)] ['a', 'b'] =
      some (1, 1, 2) ∧
    expect [fun _ => none, fun _ => some (1, 2), fun _ => some (0, 0)] none
        ⟨['a', 'b'], true, [], 0⟩ =
      .ok 1 (1, 2) ['a', 'b'] ⟨[], true, [], 0⟩ :=
  ⟨claim_C8_expect_order.1 [fun _ => none] [fun _ => some (0, 0)] (fun _ => some (1, 2))
      ['a', 'b'] (1, 2) (by intro q hq; simp at hq; subst hq; rfl) rfl,
    claim_C8_expect_order.2.2 [fun _ => none, fun _ => some (1, 2), fun _ => some (0, 0)]
      none ⟨['a', 'b'], true, [], 0⟩ 1 (1, 2) (by rfl)⟩

/-! ## The console session (`iosxr_console.py`)

`IOSXRConsole.disconnect` (lines 93–107), built on `wait_write`
(lines 109–121).  The session state carries the stored hostname and the
connected flag; the CLI prompt is derived from the prefix and the
hostname as `f"{prefix}:{hostname}#"`. -/

/-- `f"{self._hostname}"` — Python renders `None` as the string `None`. -/
def hostnameText : Option (List Char) → List Char
  | some h => h
  | none => ['N', 'o', 'n', 'e']

/-- `IOSXRConsole.cli_prompt` (lines 50–52): `f"{prefix}:{hostname}#"`. -/
def cliPrompt (pfx : List Char) (hn : Option (List Char)) : List Char :=
  pfx ++ ':' :: (hostnameText hn ++ ['#'])

/-- Session state of `IOSXRConsole`: the stored hostname and connected flag. -/
structure XRState where
  hostname : Option (List Char)
  connected : Bool
deriving DecidableEq

/-- The string written by `wait_write("exit", ...)`: `f"{write}\r"`. -/
def exitWrite : List Char := ['e', 'x', 'i', 't', '\r']

/-- Result of `IOSXRConsole.disconnect`, carrying the session state, the
connection state, and the list of strings written to the sender queue:
`notConnected` — the fast `RuntimeError` for calling while not connected;
`waitTimeout`/`waitEof` — the uncaught exception propagating out of
`wait_write("exit", cli_prompt)` before anything is written;
`failed` — the `RuntimeError("Disconnection failed...")` raised because
the prompt came back within the grace timeout;
`success` — the `TimeoutError` path that clears the hostname and the
connected flag; `exitEof` — an uncaught `EOFError` from the second
`read_until`; `blocked` — a sub-call that never returns. -/
inductive DiscRes where
  | notConnected
  | waitTimeout (st : XRState) (s : CState) (writes : List (List Char))
  | waitEof (st : XRState) (s : CState) (writes : List (List Char))
  | failed (st : XRState) (s : CState) (writes : List (List Char))
  | success (st : XRState) (s : CState) (writes : List (List Char))
  | exitEof (st : XRState) (s : CState) (writes : List (List Char))
  | blocked
deriving DecidableEq

/-- `IOSXRConsole.disconnect` (lines 93–107): guard on the connected
flag; `wait_write("exit", self.cli_prompt)` = `read_until(prompt, 10)`
then write `exit\r`; then `read_until(prompt, 1)` inside
`try ... except TimeoutError`: a returned prompt raises the
disconnection-failure error with the state untouched, the timeout clears
hostname and connected, and any other exception propagates with the
state untouched. -/
def disconnect (pfx : List Char) (st : XRState) (s : CState) : DiscRes :=
  if st.connected then
    match readUntil (cliPrompt pfx st.hostname) (some 10) s with
    | .timeoutErr s1 => .waitTimeout st s1 []
    | .eofErr s1 => .waitEof st s1 []
    | .diverge => .blocked
    | .ok _ s1 =>
      match readUntil (cliPrompt pfx st.hostname) (some 1) s1 with
      | .ok _ s2 => .failed st s2 [exitWrite]
      | .timeoutErr s2 => .success ⟨none, false⟩ s2 [exitWrite]
      | .eofErr s2 => .exitEof st s2 [exitWrite]
      | .diverge => .blocked
  else .notConnected

/-- C9: Inverted disconnect success condition.  (1) Calling
`disconnect()` while not connected raises the fast programmer error;
(2) when connected, after the prompt gates the `exit` write, a *timeout*
of the second `read_until` is the success path: the hostname is cleared,
the state becomes disconnected, and exactly the single write `exit\r`
was sent; (3) receiving the prompt again instead raises the
disconnection-failure error; (4) if the prompt never arrives to gate the
write, the `TimeoutError` propagates and nothing is written. -/
theorem claim_C9_disconnect :
    (∀ (pfx : List Char) (st : XRState) (s : CState),
      st.connected = false → disconnect pfx st s = .notConnected) ∧
    (∀ (pfx : List Char) (st : XRState) (s : CState) (r1 : List Char) (s1 s2 : CState),
      st.connected = true →
      readUntil (cliPrompt pfx st.hostname) (some 10) s = .ok r1 s1 →
      readUntil (cliPrompt pfx st.hostname) (some 1) s1 = .timeoutErr s2 →
      disconnect pfx st s = .success ⟨none, false⟩ s2 [exitWrite]) ∧
    (∀ (pfx : List Char) (st : XRState) (s : CState) (r1 : List Char) (s1 : CState)
        (r2 : List Char) (s2 : CState),
      st.connected = true →
      readUntil (cliPrompt pfx st.hostname) (some 10) s = .ok r1 s1 →
      readUntil (cliPrompt pfx st.hostname) (some 1) s1 = .ok r2 s2 →
      disconnect pfx st s = .failed st s2 [exitWrite]) ∧
    (∀ (pfx : List Char) (st : XRState) (s : CState) (s1 : CState),
      st.connected = true →
      readUntil (cliPrompt pfx st.hostname) (some 10) s = .timeoutErr s1 →
      disconnect pfx st s = .waitTimeout st s1 []) := by
  refine ⟨?_, ?_, ?_, ?_⟩
  · intro pfx st s hc
    simp [disconnect, hc]
  · intro pfx st s r1 s1 s2 hc h1 h2
    simp [disconnect, hc, h1, h2]
  · intro pfx st s r1 s1 r2 s2 hc h1 h2
    simp [disconnect, hc, h1, h2]
  · intro pfx st s s1 hc h1
    simp [disconnect, hc, h1]

/-- Witness for C9: a session whose buffer already contains the prompt
once (so the gate succeeds and the grace wait times out — successful
disconnect), and a not-connected session. -/
theorem claim_C9_disconnect_witness :
    disconnect ['P'] ⟨some ['r'], true⟩ ⟨['P', ':', 'r', '#'], true, [], 0⟩ =
      .success ⟨none, false⟩ ⟨[], true, [], 0⟩ [exitWrite] ∧
    disconnect ['P'] ⟨none, false⟩ ⟨[], true, [], 0⟩ = .notConnected :=
  ⟨claim_C9_disconnect.2.1 ['P'] ⟨some ['r'], true⟩ ⟨['P', ':', 'r', '#'], true, [], 0⟩
      ['P', ':', 'r', '#'] ⟨[], true, [], 0⟩ ⟨[], true, [], 0⟩ rfl (by decide) (by decide),
    claim_C9_disconnect.1 ['P'] ⟨none, false⟩ ⟨[], true, [], 0⟩ rfl⟩

/-- C10: Atomicity of a failed disconnect.  When `disconnect()` fails
because the prompt reappeared within the grace timeout, the raised error
carries the session state *unchanged* — the very same `st`, so the
connected flag is still `true` and the stored hostname is retained — and
a further `disconnect()` call on any connection state does not hit the
not-connected guard. -/
theorem claim_C10_failed_disconnect_atomic (pfx : List Char) (st : XRState) (s : CState)
    (r1 : List Char) (s1 : CState) (r2 : List Char) (s2 : CState)
    (hc : st.connected = true)
    (h1 : readUntil (cliPrompt pfx st.hostname) (some 10) s = .ok r1 s1)
    (h2 : readUntil (cliPrompt pfx st.hostname) (some 1) s1 = .ok r2 s2) :
    disconnect pfx st s = .failed st s2 [exitWrite] ∧
    st.connected = true ∧
    disconnect pfx st s2 ≠ .notConnected := by
  refine ⟨by simp [disconnect, hc, h1, h2], hc, ?_⟩
  simp only [disconnect, hc, if_true]
  cases h3 : readUntil (cliPrompt pfx st.hostname) (some 10) s2 with
  | ok r3 s3 =>
    simp only [h3]
    cases h4 : readUntil (cliPrompt pfx st.hostname) (some 1) s3 <;> simp [h4]
  | timeoutErr s3 => simp [h3]
  | eofErr s3 => simp [h3]
  | diverge => simp [h3]

/-- Witness for C10: the prompt arrives again after `exit`, so the
disconnect fails and the session still reports itself connected. -/
theorem claim_C10_failed_disconnect_atomic_witness :
    disconnect ['P'] ⟨some ['r'], true⟩
        ⟨['P', ':', 'r', '#', 'P', ':', 'r', '#'], true, [], 0⟩ =
      .failed ⟨some ['r'], true⟩ ⟨[], true, [], 0⟩ [exitWrite] ∧
    (⟨some ['r'], true⟩ : XRState).connected = true ∧
    disconnect ['P'] ⟨some ['r'], true⟩ ⟨[], true, [], 0⟩ ≠ .notConnected :=
  claim_C10_failed_disconnect_atomic ['P'] ⟨some ['r'], true⟩
    ⟨['P', ':', 'r', '#', 'P', ':', 'r', '#'], true, [], 0⟩
    ['P', ':', 'r', '#'] ⟨['P', ':', 'r', '#'], true, [], 0⟩
    ['P', ':', 'r', '#'] ⟨[], true, [], 0⟩ rfl (by decide) (by decide)

end Clab